import Mathlib

/-!
Shallow embedding of the bank-statement OCR tool (a React single-page app).
The embedded operations are, from `App.tsx`:
  * `summary`      — the memoised dashboard summary (income / expenses / net /
                     per-category chart data);
  * `processStatements` — the batch orchestrator that extracts transactions
                     from each uploaded document in order;
  * `exportToCSV`  — the CSV serialiser;
and, from `services/geminiService.ts`:
  * `extractTransactions` — the id-assignment step of the extraction service.

JavaScript numbers are modelled as rationals (`ℚ`); JS string-keyed record
objects used as maps are modelled as insertion-ordered association lists;
the stable `Array.prototype.sort` is modelled by `List.mergeSort`, which is
stable; thrown errors are modelled with `Except String`.
-/

namespace BankOCR

/-- `Transaction` from `types.ts`. -/
structure Transaction where
  id : String
  date : String
  description : String
  amount : ℚ
  category : String
  notes : String
  sourceFile : String
deriving Repr, DecidableEq

/-- A transaction as parsed from the model's JSON, before an `id` (and later a
`sourceFile` tag) is attached. Mirrors the response schema in
`geminiService.ts` (`date`, `description`, `amount`, `category`, `notes`). -/
structure RawTransaction where
  date : String
  description : String
  amount : ℚ
  category : String
  notes : String
deriving Repr, DecidableEq

/-- `FileData` from `types.ts`. -/
structure FileData where
  name : String
  base64 : String
  type : String
deriving Repr, DecidableEq

/-- `ProcessingStatus` from `types.ts`. -/
inductive ProcessingStatus where
  | IDLE
  | UPLOADING
  | ANALYZING
  | SUCCESS
  | ERROR
deriving Repr, DecidableEq

/-- One entry of `summary.categoryData` in `App.tsx`. -/
structure CategoryDatum where
  name : String
  value : ℚ
  percentage : ℚ
  color : String
deriving Repr, DecidableEq

/-- The record returned by the `summary` memo in `App.tsx`. -/
structure Summary where
  count : ℕ
  income : ℚ
  expenses : ℚ
  net : ℚ
  categoryData : List CategoryDatum
deriving Repr, DecidableEq

/-- The fixed 8-color palette `COLORS` of `App.tsx`. -/
def COLORS : List String :=
  ["#4f46e5", "#f43f5e", "#10b981", "#f59e0b", "#06b6d4", "#8b5cf6", "#ec4899", "#64748b"]

/-- One step of building `categoryMap`:
`categoryMap[k] = (categoryMap[k] || 0) + v` on a JS object, i.e. update the
existing key in place, else append the new key at the end (JS objects keep
string keys in insertion order). -/
def addToMap : List (String × ℚ) → String → ℚ → List (String × ℚ)
  | [], k, v => [(k, v)]
  | (k', v') :: rest, k, v =>
    if k' = k then (k', v' + v) :: rest else (k', v') :: addToMap rest k v

/-- The `categoryMap` built by the `forEach` loop in `summary`:
for every transaction with `amount < 0`, add `Math.abs(amount)` into the
bucket of its category. -/
def buildCategoryMap (ts : List Transaction) : List (String × ℚ) :=
  ts.foldl (fun m t => if t.amount < 0 then addToMap m t.category |t.amount| else m) []

/-- The `.map(([name, value], index) => ...)` step over `Object.entries`:
build a `CategoryDatum` from each bucket, where `i` is the running index used
for the color lookup `COLORS[index % COLORS.length]`. -/
def mkCategoryData (total : ℚ) : ℕ → List (String × ℚ) → List CategoryDatum
  | _, [] => []
  | i, e :: rest =>
    { name := e.1
      value := e.2
      percentage := if 0 < total then e.2 / total * 100 else 0
      color := COLORS.getD (i % COLORS.length) "" } :: mkCategoryData total (i + 1) rest

/-- The comparator `(a, b) => b.value - a.value`: element `a` stays before `b`
exactly when the comparator is `≤ 0`, i.e. when `b.value ≤ a.value`. -/
def categoryDescLe (a b : CategoryDatum) : Bool :=
  decide (b.value ≤ a.value)

/-- The local `income` of the `summary` memo:
`currentTransactions.filter(t => t.amount > 0).reduce((acc, t) => acc + t.amount, 0)`. -/
def incomeOf (ts : List Transaction) : ℚ :=
  (ts.filter fun t => decide (0 < t.amount)).foldl (fun acc t => acc + t.amount) 0

/-- The local `expenses` of the `summary` memo (the raw, nonpositive sum):
`currentTransactions.filter(t => t.amount < 0).reduce((acc, t) => acc + t.amount, 0)`. -/
def expensesOf (ts : List Transaction) : ℚ :=
  (ts.filter fun t => decide (t.amount < 0)).foldl (fun acc t => acc + t.amount) 0

/-- The `Object.entries(categoryMap).map(...)` list of the `summary` memo,
before the descending sort; `totalExpenseAbs = Math.abs(expenses)`. -/
def preSortCategoryData (ts : List Transaction) : List CategoryDatum :=
  mkCategoryData |expensesOf ts| 0 (buildCategoryMap ts)

/-- The `summary` memo of `App.tsx`, as a function of the scoped transaction
list (`currentTransactions`). -/
def summary (ts : List Transaction) : Summary :=
  { count := ts.length
    income := incomeOf ts
    expenses := |expensesOf ts|
    net := incomeOf ts + expensesOf ts
    categoryData := (preSortCategoryData ts).mergeSort categoryDescLe }

/-- Smallest exponent `k` with `d ∣ 10 ^ k`, searched up to `d` (which always
suffices when `d`'s prime factors are among 2 and 5); `none` otherwise. -/
def decimalExponent (d : ℕ) : Option ℕ :=
  (List.range (d + 1)).find? (fun k => decide (10 ^ k % d = 0))

/-- Left-pad a digit string with zeros to width `k`. -/
def padZeros (k : ℕ) (s : String) : String :=
  String.mk (List.replicate (k - s.length) '0') ++ s

/-- Decimal rendering of a nonnegative rational with terminating decimal
expansion, shortest form (no trailing fractional zeros, no `.0`). -/
def nonnegRatToDecimalString (q : ℚ) : String :=
  match decimalExponent q.den with
  | some k =>
    let scaled := q.num.toNat * 10 ^ k / q.den
    if k = 0 then toString scaled
    else toString (scaled / 10 ^ k) ++ "." ++ padZeros k (toString (scaled % 10 ^ k))
  | none => toString q.num ++ "/" ++ toString q.den

/-- JavaScript's default number-to-string conversion (as used by
`Array.prototype.join`), on the rational model of JS numbers: every JS float
is a dyadic rational, so its exact decimal expansion terminates and JS prints
the shortest decimal form, e.g. `-4.5` prints as `"-4.5"` and `5` as `"5"`. -/
def ratToDecimalString (q : ℚ) : String :=
  if q < 0 then "-" ++ nonnegRatToDecimalString (-q) else nonnegRatToDecimalString q

/-- `s.replace(/"/g, '""')`: the global regex replace doubles every quote
character and leaves every other character unchanged, modelled character by
character. -/
def escapeQuotes (s : String) : String :=
  String.mk (s.data.flatMap fun c => if c = '"' then ['"', '"'] else [c])

/-- The header row `headers.join(',')` of `exportToCSV`. -/
def csvHeader : String :=
  String.intercalate "," ["Date", "Description", "Amount", "Category", "Notes", "Source"]

/-- One data row of `exportToCSV`: `[t.date, "..desc..", t.amount, t.category,
"..notes..", "..source.."].join(',')`, where `description` and `notes` have
embedded quotes doubled and are wrapped in quotes, `sourceFile` is wrapped in
quotes without doubling, and `date`, `amount`, `category` are emitted raw. -/
def csvRow (render : ℚ → String) (t : Transaction) : String :=
  String.intercalate ","
    [t.date,
     "\"" ++ (escapeQuotes t.description) ++ "\"",
     render t.amount,
     t.category,
     "\"" ++ (escapeQuotes t.notes) ++ "\"",
     "\"" ++ t.sourceFile ++ "\""]

/-- `exportToCSV` of `App.tsx`, as a function of the scoped transaction list.
Returns `none` on the early `return` for an empty list, otherwise the full
`csvContent` string handed to the `Blob`. -/
def exportToCSV (ts : List Transaction) : Option String :=
  if ts.length = 0 then none
  else some (String.intercalate "\n" (csvHeader :: ts.map (csvRow ratToDecimalString)))

/-- Modelled from the claim's wording, for comparison with `csvRow`: a row in
which EVERY string field containing quote characters is escaped by doubling
the embedded quotes and wrapping the whole field in quotes (keeping the
claim's example layout: `description`, `notes` and `sourceFile` wrapped even
without quotes; `date` and `category` wrapped only when they contain quotes;
`amount` raw and unquoted). -/
def specEscapeField (s : String) : String :=
  if s.toList.contains '"' then "\"" ++ (escapeQuotes s) ++ "\"" else s

/-- Modelled from the claim's wording: the data row mandated by the claim's
universal escaping rule (see `specEscapeField`). -/
def specCsvRow (render : ℚ → String) (t : Transaction) : String :=
  String.intercalate ","
    [specEscapeField t.date,
     "\"" ++ (escapeQuotes t.description) ++ "\"",
     render t.amount,
     specEscapeField t.category,
     "\"" ++ (escapeQuotes t.notes) ++ "\"",
     "\"" ++ (escapeQuotes t.sourceFile) ++ "\""]

/-- The id-assigning result mapping of `extractTransactions` in
`geminiService.ts`: each parsed transaction gets
`id = Date.now() + "-" + index` (with `now` the timestamp of this call),
and no `sourceFile` yet (modelled as `""`; the orchestrator overwrites it). -/
def extractTransactions (now : ℕ) (parsed : List RawTransaction) : List Transaction :=
  (List.range parsed.length).zip parsed |>.map fun p =>
    { id := toString now ++ "-" ++ toString p.1
      date := p.2.date
      description := p.2.description
      amount := p.2.amount
      category := p.2.category
      notes := p.2.notes
      sourceFile := "" }

/-- The component state of `App.tsx` touched by `processStatements`. -/
structure AppState where
  files : List FileData
  transactions : List Transaction
  status : ProcessingStatus
  error : Option String
  selectedView : String
  processedCount : ℕ
  currentlyProcessingIdx : Option ℕ
deriving Repr, DecidableEq

/-- `err.message || "Failed to extract data. ..."`: an empty message string is
falsy in JS, so the fallback text is used. -/
def catchMessage (m : String) : String :=
  if m = "" then "Failed to extract data. Please ensure the files are valid PDFs or images." else m

/-- The `for` loop of `processStatements` together with the code after it and
the `catch` handler. `i` is the loop index, `acc` is
`allExtractedTransactions`. On normal loop exit the consolidated list is
published with `SUCCESS`; on the first extraction error the loop aborts,
`acc` is dropped, and the error message plus `ERROR` status are set. -/
def processLoop (extract : FileData → Except String (List Transaction))
    (acc : List Transaction) (i : ℕ) :
    List FileData → AppState → AppState
  | [], s =>
    { s with
      transactions := acc
      status := ProcessingStatus.SUCCESS
      currentlyProcessingIdx := none
      selectedView := "all" }
  | f :: rest, s =>
    let s1 := { s with currentlyProcessingIdx := some i }
    match extract f with
    | Except.error msg =>
      { s1 with
        error := some (catchMessage msg)
        status := ProcessingStatus.ERROR
        currentlyProcessingIdx := none }
    | Except.ok result =>
      let tagged := result.map fun t => { t with sourceFile := f.name }
      processLoop extract (acc ++ tagged) (i + 1) rest { s1 with processedCount := i + 1 }

/-- `processStatements` of `App.tsx`: early return on an empty file list,
otherwise reset the progress state (status `ANALYZING`, no error, zero
processed count, empty transaction list) and run the extraction loop. The
extraction collaborator is a parameter `extract`; a thrown error is its
`Except.error` branch, carrying `err.message`. -/
def processStatements (extract : FileData → Except String (List Transaction))
    (s : AppState) : AppState :=
  if s.files.length = 0 then s
  else
    processLoop extract [] 0 s.files
      { s with
        status := ProcessingStatus.ANALYZING
        error := none
        processedCount := 0
        transactions := [] }

/-! ## General lemmas about the summary computation -/

theorem foldl_add_amount (l : List Transaction) (a : ℚ) :
    l.foldl (fun acc t => acc + t.amount) a = a + (l.map Transaction.amount).sum := by
  induction l generalizing a with
  | nil => simp
  | cons t l ih => simp [ih, add_assoc]

theorem map_amount_filter (p : ℚ → Bool) (l : List Transaction) :
    (l.filter fun t => p t.amount).map Transaction.amount = (l.map Transaction.amount).filter p := by
  induction l with
  | nil => simp
  | cons t l ih =>
    by_cases h : p t.amount <;> simp [List.filter_cons, h, ih]

theorem filter_pos_add_filter_neg_sum (l : List ℚ) :
    ((l.filter fun a => decide (0 < a)).sum + (l.filter fun a => decide (a < 0)).sum) = l.sum := by
  induction l with
  | nil => simp
  | cons a l ih =>
    rcases lt_trichotomy a 0 with h | h | h
    · have h' : ¬ (0 : ℚ) < a := not_lt.mpr h.le
      simp only [List.filter_cons, h, h', if_true, if_false, decide_eq_true_eq, if_neg, if_pos]
      simp only [List.sum_cons, ← ih]
      ring
    · subst h
      simp [List.filter_cons, ih]
    · have h' : ¬ a < (0 : ℚ) := not_lt.mpr h.le
      simp only [List.filter_cons, h, h', if_true, if_false, decide_eq_true_eq, if_neg, if_pos]
      simp only [List.sum_cons, ← ih]
      ring

theorem incomeOf_eq_sum (ts : List Transaction) :
    incomeOf ts = ((ts.map Transaction.amount).filter fun a => decide (0 < a)).sum := by
  rw [incomeOf, foldl_add_amount, map_amount_filter (fun a => decide (0 < a)), zero_add]

theorem expensesOf_eq_sum (ts : List Transaction) :
    expensesOf ts = ((ts.map Transaction.amount).filter fun a => decide (a < 0)).sum := by
  rw [expensesOf, foldl_add_amount, map_amount_filter (fun a => decide (a < 0)), zero_add]

theorem addToMap_values_sum (m : List (String × ℚ)) (k : String) (v : ℚ) :
    ((addToMap m k v).map Prod.snd).sum = (m.map Prod.snd).sum + v := by
  induction m with
  | nil => simp [addToMap]
  | cons e rest ih =>
    obtain ⟨k', v'⟩ := e
    by_cases h : k' = k
    · simp only [addToMap, h, if_pos rfl]
      simp [add_assoc, add_comm]
    · simp only [addToMap, if_neg h]
      simp [ih, add_assoc]

theorem buildCategoryMap_go_values_sum (ts : List Transaction) :
    ∀ m : List (String × ℚ),
      ((ts.foldl (fun m t => if t.amount < 0 then addToMap m t.category |t.amount| else m) m).map
          Prod.snd).sum
        = (m.map Prod.snd).sum
            + ((ts.filter fun t => decide (t.amount < 0)).map fun t => |t.amount|).sum := by
  induction ts with
  | nil => simp
  | cons t rest ih =>
    intro m
    by_cases h : t.amount < 0
    · simp only [List.foldl_cons, List.filter_cons, h, if_pos, decide_eq_true_eq]
      rw [ih, addToMap_values_sum]
      simp [add_assoc]
    · simp only [List.foldl_cons, List.filter_cons, h, if_neg, decide_eq_true_eq]
      rw [ih]
      simp [h]

theorem buildCategoryMap_values_sum (ts : List Transaction) :
    ((buildCategoryMap ts).map Prod.snd).sum
      = ((ts.filter fun t => decide (t.amount < 0)).map fun t => |t.amount|).sum := by
  rw [buildCategoryMap, buildCategoryMap_go_values_sum]
  simp

theorem sum_abs_of_all_neg (l : List ℚ) (h : ∀ a ∈ l, a < 0) :
    (l.map fun a => |a|).sum = -l.sum := by
  induction l with
  | nil => simp
  | cons a rest ih =>
    have ha : a < 0 := h a (List.mem_cons_self a rest)
    have hrest : ∀ b ∈ rest, b < 0 := fun b hb => h b (List.mem_cons_of_mem a hb)
    simp [ih hrest, abs_of_neg ha]
    ring

theorem sum_nonpos_of_all_neg (l : List ℚ) (h : ∀ a ∈ l, a < 0) : l.sum ≤ 0 := by
  induction l with
  | nil => simp
  | cons a rest ih =>
    have ha : a < 0 := h a (List.mem_cons_self a rest)
    have hrest : ∀ b ∈ rest, b < 0 := fun b hb => h b (List.mem_cons_of_mem a hb)
    simpa using add_nonpos ha.le (ih hrest)

theorem abs_expensesOf (ts : List Transaction) :
    |expensesOf ts| = ((ts.filter fun t => decide (t.amount < 0)).map fun t => |t.amount|).sum := by
  have hneg : ∀ a ∈ (ts.map Transaction.amount).filter fun a => decide (a < 0), a < 0 := by
    intro a ha
    simpa using (List.mem_filter.mp ha).2
  have h1 : ((ts.filter fun t => decide (t.amount < 0)).map fun t => |t.amount|).sum
      = (((ts.map Transaction.amount).filter fun a => decide (a < 0)).map fun a => |a|).sum := by
    rw [← map_amount_filter (fun a => decide (a < 0)), List.map_map]
    rfl
  rw [expensesOf_eq_sum, h1, sum_abs_of_all_neg _ hneg]
  have hle : ((ts.map Transaction.amount).filter fun a => decide (a < 0)).sum ≤ 0 :=
    sum_nonpos_of_all_neg _ hneg
  rw [abs_of_nonpos hle]

theorem mkCategoryData_values (total : ℚ) :
    ∀ (i : ℕ) (m : List (String × ℚ)),
      (mkCategoryData total i m).map CategoryDatum.value = m.map Prod.snd := by
  intro i m
  induction m generalizing i with
  | nil => simp [mkCategoryData]
  | cons e rest ih => simp [mkCategoryData, ih]

theorem categoryData_perm_preSort (ts : List Transaction) :
    ((summary ts).categoryData).Perm (preSortCategoryData ts) :=
  List.mergeSort_perm (preSortCategoryData ts) categoryDescLe

theorem categoryData_values_sum_eq_expenses (ts : List Transaction) :
    (((summary ts).categoryData).map CategoryDatum.value).sum = |expensesOf ts| := by
  rw [((categoryData_perm_preSort ts).map CategoryDatum.value).sum_eq]
  rw [preSortCategoryData, mkCategoryData_values, buildCategoryMap_values_sum, abs_expensesOf]

theorem mkCategoryData_percentage (total : ℚ) :
    ∀ (m : List (String × ℚ)) (i : ℕ) (d : CategoryDatum), d ∈ mkCategoryData total i m →
      d.percentage = if 0 < total then d.value / total * 100 else 0 := by
  intro m
  induction m with
  | nil => intro i d hd; simp [mkCategoryData] at hd
  | cons e rest ih =>
    intro i d hd
    rcases List.mem_cons.mp hd with h | h
    · subst h; rfl
    · exact ih (i + 1) d h

theorem sum_map_div_mul (l : List CategoryDatum) (T : ℚ) :
    (l.map fun d => d.value / T * 100).sum = ((l.map CategoryDatum.value).sum) / T * 100 := by
  induction l with
  | nil => simp
  | cons d rest ih => simp [ih, add_div, add_mul]

theorem mkCategoryData_names (total : ℚ) :
    ∀ (i : ℕ) (m : List (String × ℚ)),
      (mkCategoryData total i m).map CategoryDatum.name = m.map Prod.fst := by
  intro i m
  induction m generalizing i with
  | nil => simp [mkCategoryData]
  | cons e rest ih => simp [mkCategoryData, ih]

theorem mkCategoryData_color (total : ℚ) :
    ∀ (m : List (String × ℚ)) (i j : ℕ) (h : j < (mkCategoryData total i m).length),
      ((mkCategoryData total i m).get ⟨j, h⟩).color = COLORS.getD ((i + j) % COLORS.length) "" := by
  intro m
  induction m with
  | nil => intro i j h; simp [mkCategoryData] at h
  | cons e rest ih =>
    intro i j h
    cases j with
    | zero => simp [mkCategoryData]
    | succ j =>
      have h' : j < (mkCategoryData total (i + 1) rest).length := by
        simp only [mkCategoryData, List.length_cons] at h
        omega
      have : ((mkCategoryData total i (e :: rest)).get ⟨j + 1, h⟩)
          = ((mkCategoryData total (i + 1) rest).get ⟨j, h'⟩) := by
        simp [mkCategoryData]
      rw [this, ih (i + 1) j h']
      have harith : (i + 1) + j = i + (j + 1) := by omega
      rw [harith]

theorem addToMap_keys_mem (k : String) (v : ℚ) :
    ∀ (m : List (String × ℚ)) (a : String),
      (a ∈ (addToMap m k v).map Prod.fst ↔ a ∈ m.map Prod.fst ∨ a = k) := by
  intro m
  induction m with
  | nil => intro a; simp [addToMap]
  | cons e rest ih =>
    intro a
    obtain ⟨k', v'⟩ := e
    simp only [addToMap]
    by_cases h : k' = k
    · rw [if_pos h]
      subst h
      simp only [List.map_cons, List.mem_cons]
      tauto
    · rw [if_neg h]
      simp only [List.map_cons, List.mem_cons, ih a]
      tauto

theorem addToMap_keys_nodup (k : String) (v : ℚ) :
    ∀ m : List (String × ℚ),
      (m.map Prod.fst).Nodup → ((addToMap m k v).map Prod.fst).Nodup := by
  intro m
  induction m with
  | nil => intro _; simp [addToMap]
  | cons e rest ih =>
    intro hnd
    obtain ⟨k', v'⟩ := e
    simp only [List.map_cons, List.nodup_cons] at hnd
    simp only [addToMap]
    by_cases h : k' = k
    · rw [if_pos h]
      subst h
      simp only [List.map_cons, List.nodup_cons]
      exact hnd
    · rw [if_neg h]
      simp only [List.map_cons, List.nodup_cons]
      refine ⟨?_, ih hnd.2⟩
      rw [addToMap_keys_mem]
      push_neg
      exact ⟨hnd.1, h⟩

theorem buildCategoryMap_go_keys_mem (ts : List Transaction) :
    ∀ (m : List (String × ℚ)) (a : String),
      (a ∈ ((ts.foldl (fun m t => if t.amount < 0 then addToMap m t.category |t.amount| else m)
              m).map Prod.fst)
        ↔ a ∈ m.map Prod.fst ∨ ∃ t ∈ ts, t.amount < 0 ∧ t.category = a) := by
  induction ts with
  | nil => intro m a; simp
  | cons t rest ih =>
    intro m a
    by_cases h : t.amount < 0
    · simp only [List.foldl_cons, if_pos h, ih, addToMap_keys_mem, List.mem_cons]
      constructor
      · intro hc
        rcases hc with (hc | hc) | hc
        · exact Or.inl hc
        · exact Or.inr ⟨t, Or.inl rfl, h, hc.symm⟩
        · obtain ⟨u, hu, hu2⟩ := hc
          exact Or.inr ⟨u, Or.inr hu, hu2⟩
      · intro hc
        rcases hc with hc | ⟨u, hu, hneg, hcat⟩
        · exact Or.inl (Or.inl hc)
        · rcases hu with hu | hu
          · subst hu; exact Or.inl (Or.inr hcat.symm)
          · exact Or.inr ⟨u, hu, hneg, hcat⟩
    · simp only [List.foldl_cons, if_neg h, ih, List.mem_cons]
      constructor
      · intro hc
        rcases hc with hc | ⟨u, hu, hu2⟩
        · exact Or.inl hc
        · exact Or.inr ⟨u, Or.inr hu, hu2⟩
      · intro hc
        rcases hc with hc | ⟨u, hu, hneg, hcat⟩
        · exact Or.inl hc
        · rcases hu with hu | hu
          · subst hu; exact absurd hneg h
          · exact Or.inr ⟨u, hu, hneg, hcat⟩

theorem buildCategoryMap_go_keys_nodup (ts : List Transaction) :
    ∀ m : List (String × ℚ),
      (m.map Prod.fst).Nodup →
      (((ts.foldl (fun m t => if t.amount < 0 then addToMap m t.category |t.amount| else m)
          m).map Prod.fst)).Nodup := by
  induction ts with
  | nil => intro m hm; simpa using hm
  | cons t rest ih =>
    intro m hm
    by_cases h : t.amount < 0
    · simp only [List.foldl_cons, if_pos h]
      exact ih _ (addToMap_keys_nodup _ _ _ hm)
    · simp only [List.foldl_cons, if_neg h]
      exact ih _ hm

theorem buildCategoryMap_keys_mem (ts : List Transaction) (a : String) :
    a ∈ (buildCategoryMap ts).map Prod.fst ↔ ∃ t ∈ ts, t.amount < 0 ∧ t.category = a := by
  rw [buildCategoryMap, buildCategoryMap_go_keys_mem]
  simp

theorem buildCategoryMap_keys_nodup (ts : List Transaction) :
    ((buildCategoryMap ts).map Prod.fst).Nodup := by
  rw [buildCategoryMap]
  exact buildCategoryMap_go_keys_nodup ts [] (by simp)

theorem categoryDescLe_trans (a b c : CategoryDatum) :
    categoryDescLe a b = true → categoryDescLe b c = true → categoryDescLe a c = true := by
  simp only [categoryDescLe, decide_eq_true_eq]
  exact fun h1 h2 => le_trans h2 h1

theorem categoryDescLe_total (a b : CategoryDatum) :
    (categoryDescLe a b || categoryDescLe b a) = true := by
  simp only [categoryDescLe, Bool.or_eq_true, decide_eq_true_eq]
  exact le_total b.value a.value

theorem categoryData_pairwise (ts : List Transaction) :
    ((summary ts).categoryData).Pairwise fun a b => categoryDescLe a b = true :=
  List.sorted_mergeSort categoryDescLe_trans categoryDescLe_total (preSortCategoryData ts)

/-! ## Concrete fixtures used by counterexamples and witnesses -/

/-- An expense transaction in category `"A"`, grouped first but smaller. -/
def txA : Transaction :=
  { id := "t1", date := "2024-01-01", description := "alpha", amount := -1,
    category := "A", notes := "", sourceFile := "a.pdf" }

/-- An expense transaction in category `"B"`, grouped second but larger, so
the descending sort puts `"B"` in front of `"A"`. -/
def txB : Transaction :=
  { id := "t2", date := "2024-01-02", description := "beta", amount := -2,
    category := "B", notes := "", sourceFile := "a.pdf" }

/-! ## Claim theorems -/

unseal List.merge List.mergeSort in
/-- C1 (counterexample): it is NOT the case that the entry at position `i` of
the final (descending-by-value sorted) `categoryData` has color
`COLORS[i % 8]`. With categories `"A"` (value 1, grouped first) and `"B"`
(value 2, grouped second), the sorted output is `[B, A]` with colors
`[COLORS[1], COLORS[0]]`, not `[COLORS[0], COLORS[1]]`. -/
theorem colors_not_cycling_in_sorted_order :
    ((summary [txA, txB]).categoryData.map CategoryDatum.color) ≠
      (List.range ((summary [txA, txB]).categoryData.length)).map
        (fun i => COLORS.getD (i % COLORS.length) "") := by decide

/-- C1 (amended): colors cycle through the fixed 8-color palette by index
modulo 8 over the category entries in grouping (first-occurrence) order,
BEFORE the descending sort; the sorted `categoryData` is a permutation of
that pre-sort list, so each sorted entry carries the color of its grouping
index, not of its sorted position. -/
theorem colors_cycle_in_grouping_order (ts : List Transaction) (i : ℕ)
    (h : i < (preSortCategoryData ts).length) :
    ((preSortCategoryData ts).get ⟨i, h⟩).color = COLORS.getD (i % COLORS.length) "" ∧
    ((summary ts).categoryData).Perm (preSortCategoryData ts) := by
  constructor
  · have := mkCategoryData_color |expensesOf ts| (buildCategoryMap ts) 0 i h
    simpa using this
  · exact categoryData_perm_preSort ts

/-- Witness for C1 (amended) at the two-category fixture, index 0. -/
theorem colors_cycle_in_grouping_order_witness :
    0 < (preSortCategoryData [txA, txB]).length ∧
    (((preSortCategoryData [txA, txB]).get ⟨0, by decide⟩).color
        = COLORS.getD (0 % COLORS.length) "" ∧
      ((summary [txA, txB]).categoryData).Perm (preSortCategoryData [txA, txB])) :=
  ⟨by decide, colors_cycle_in_grouping_order [txA, txB] 0 (by decide)⟩

/-- C5: for every scoped transaction list, the summary's `net` equals the
arithmetic sum of all `amount` fields; the empty list yields
`count = 0`, `income = 0`, `expenses = 0`, `net = 0` and no category data. -/
theorem summary_net_eq_total_sum (ts : List Transaction) :
    (summary ts).net = (ts.map Transaction.amount).sum ∧
    summary [] = { count := 0, income := 0, expenses := 0, net := 0, categoryData := [] } := by
  constructor
  · show incomeOf ts + expensesOf ts = _
    rw [incomeOf_eq_sum, expensesOf_eq_sum, filter_pos_add_filter_neg_sum]
  · simp [summary, preSortCategoryData, buildCategoryMap, mkCategoryData, incomeOf, expensesOf]

/-- C6: for every scoped transaction list, the `value` fields of
`categoryData` sum to the summary's `expenses` field (the absolute value of
the sum of all negative amounts): the category buckets fully account for all
expense magnitudes. -/
theorem categoryData_values_account_for_expenses (ts : List Transaction) :
    (((summary ts).categoryData).map CategoryDatum.value).sum = (summary ts).expenses :=
  categoryData_values_sum_eq_expenses ts

/-- C7: every `categoryData` entry's `percentage` is
`value / expenses * 100`, with `0` substituted when `expenses = 0`;
consequently the percentages sum to `100` whenever `expenses > 0`, and are
all `0` when `expenses = 0`. -/
theorem categoryData_percentages (ts : List Transaction) :
    (∀ d ∈ (summary ts).categoryData,
        d.percentage =
          if 0 < (summary ts).expenses then d.value / (summary ts).expenses * 100 else 0) ∧
    (0 < (summary ts).expenses →
        (((summary ts).categoryData).map CategoryDatum.percentage).sum = 100) ∧
    ((summary ts).expenses = 0 → ∀ d ∈ (summary ts).categoryData, d.percentage = 0) := by
  have hmem : ∀ d ∈ (summary ts).categoryData,
      d.percentage = if 0 < |expensesOf ts| then d.value / |expensesOf ts| * 100 else 0 := by
    intro d hd
    have hd' : d ∈ preSortCategoryData ts := (categoryData_perm_preSort ts).mem_iff.mp hd
    exact mkCategoryData_percentage |expensesOf ts| (buildCategoryMap ts) 0 d hd'
  refine ⟨hmem, ?_, ?_⟩
  · intro hpos
    have hpos' : 0 < |expensesOf ts| := hpos
    have hmap : ((summary ts).categoryData).map CategoryDatum.percentage
        = ((summary ts).categoryData).map (fun d => d.value / |expensesOf ts| * 100) := by
      apply List.map_congr_left
      intro d hd
      rw [hmem d hd, if_pos hpos']
    rw [hmap, sum_map_div_mul, categoryData_values_sum_eq_expenses]
    show |expensesOf ts| / |expensesOf ts| * 100 = 100
    rw [div_self (ne_of_gt hpos'), one_mul]
  · intro hzero d hd
    have hzero' : |expensesOf ts| = 0 := hzero
    rw [hmem d hd, hzero']
    simp

/-- Witness for C7 at a one-expense fixture, where `expenses = 1 > 0`. -/
theorem categoryData_percentages_witness :
    0 < (summary [txA]).expenses ∧
    (((summary [txA]).categoryData).map CategoryDatum.percentage).sum = 100 :=
  ⟨by norm_num [summary, expensesOf, txA, List.filter_cons, List.filter_nil],
   (categoryData_percentages [txA]).2.1
     (by norm_num [summary, expensesOf, txA, List.filter_cons, List.filter_nil])⟩

/-- C9: for every scoped transaction list, `categoryData` is sorted in
descending order of `value`: each adjacent pair satisfies
`categoryData[i].value ≥ categoryData[i+1].value`. -/
theorem categoryData_sorted_descending (ts : List Transaction) (i : ℕ)
    (h : i + 1 < ((summary ts).categoryData).length) :
    ((summary ts).categoryData.get ⟨i + 1, h⟩).value ≤
      ((summary ts).categoryData.get ⟨i, Nat.lt_of_succ_lt h⟩).value := by
  have hp := categoryData_pairwise ts
  have hrel := List.pairwise_iff_get.mp hp ⟨i, Nat.lt_of_succ_lt h⟩ ⟨i + 1, h⟩
    (by simp [Fin.lt_def])
  simpa [categoryDescLe] using hrel

unseal List.merge List.mergeSort in
/-- Witness for C9 at the two-category fixture, adjacent pair (0, 1). -/
theorem categoryData_sorted_descending_witness :
    0 + 1 < ((summary [txA, txB]).categoryData).length ∧
    ((summary [txA, txB]).categoryData.get ⟨0 + 1, by decide⟩).value ≤
      ((summary [txA, txB]).categoryData.get ⟨0, by decide⟩).value :=
  ⟨by decide, categoryData_sorted_descending [txA, txB] 0 (by decide)⟩

/-- C10: for every scoped transaction list, the `name` fields of
`categoryData` are pairwise distinct, and a category name appears in
`categoryData` iff some transaction with `amount < 0` bears that category. -/
theorem categoryData_names_distinct_and_complete (ts : List Transaction) :
    (((summary ts).categoryData).map CategoryDatum.name).Nodup ∧
    ∀ c : String,
      ((∃ d ∈ (summary ts).categoryData, d.name = c) ↔
        ∃ t ∈ ts, t.amount < 0 ∧ t.category = c) := by
  have hperm : (((summary ts).categoryData).map CategoryDatum.name).Perm
      ((preSortCategoryData ts).map CategoryDatum.name) :=
    (categoryData_perm_preSort ts).map _
  have hnames : (preSortCategoryData ts).map CategoryDatum.name
      = (buildCategoryMap ts).map Prod.fst := mkCategoryData_names _ 0 _
  constructor
  · rw [hperm.nodup_iff, hnames]
    exact buildCategoryMap_keys_nodup ts
  · intro c
    have hm : (∃ d ∈ (summary ts).categoryData, d.name = c) ↔
        c ∈ ((summary ts).categoryData).map CategoryDatum.name := by
      simp [List.mem_map]
    rw [hm, hperm.mem_iff, hnames]
    exact buildCategoryMap_keys_mem ts c

/-! ## CSV export (C3) -/

/-- The claim's example transaction; `-4.5 = -9/2`. -/
def txCsvExample : Transaction :=
  { id := "tx-csv", date := "2024-01-05", description := "Coffee \"Shop\"", amount := -9/2,
    category := "Dining", notes := "", sourceFile := "a.pdf" }

/-- A transaction whose `category` contains a quote character. -/
def txQuotedCategory : Transaction :=
  { id := "tx-q", date := "2024-01-05", description := "x", amount := -1,
    category := "Caf\"e", notes := "", sourceFile := "a.pdf" }

unseal Rat.add Rat.mul Rat.inv Rat.sub Rat.ofScientific in
/-- C3 (counterexample): the claim's universal escaping rule fails: a
`category` containing a quote character is emitted raw (neither doubled nor
wrapped), so the emitted row differs from the row the claim mandates
(`specCsvRow`). -/
theorem exportToCSV_escaping_counterexample :
    exportToCSV [txQuotedCategory]
        = some (csvHeader ++ "\n" ++ "2024-01-05,\"x\",-1,Caf\"e,\"\",\"a.pdf\"") ∧
    csvRow ratToDecimalString txQuotedCategory
        ≠ specCsvRow ratToDecimalString txQuotedCategory := by
  constructor <;> decide

unseal Rat.add Rat.mul Rat.inv Rat.sub Rat.ofScientific in
/-- C3 (amended): the CSV export emits the header row
`Date,Description,Amount,Category,Notes,Source` and one row per transaction
in list order, where `description` and `notes` are wrapped in quotes with
embedded quotes doubled, `sourceFile` is wrapped in quotes (without
doubling), and `date`, `amount` (raw signed number) and `category` are
emitted raw; the claim's single-transaction example row holds as stated. -/
theorem exportToCSV_format (ts : List Transaction) (h : ts ≠ []) :
    exportToCSV ts
        = some (String.intercalate "\n" (csvHeader :: ts.map (csvRow ratToDecimalString))) ∧
    csvHeader = "Date,Description,Amount,Category,Notes,Source" ∧
    csvRow ratToDecimalString txCsvExample
        = "2024-01-05,\"Coffee \"\"Shop\"\"\",-4.5,Dining,\"\",\"a.pdf\"" := by
  refine ⟨?_, by decide, by decide⟩
  have hlen : ¬ ts.length = 0 := by simpa [List.length_eq_zero] using h
  rw [exportToCSV, if_neg hlen]

/-- Witness for C3 (amended) at the claim's example transaction. -/
theorem exportToCSV_format_witness :
    ([txCsvExample] : List Transaction) ≠ [] ∧
    (exportToCSV [txCsvExample]
        = some (String.intercalate "\n"
            (csvHeader :: [txCsvExample].map (csvRow ratToDecimalString))) ∧
     csvHeader = "Date,Description,Amount,Category,Notes,Source" ∧
     csvRow ratToDecimalString txCsvExample
        = "2024-01-05,\"Coffee \"\"Shop\"\"\",-4.5,Dining,\"\",\"a.pdf\"") :=
  ⟨by decide, exportToCSV_format [txCsvExample] (by decide)⟩

/-! ## Batch orchestration (C2, C4, C8) -/

theorem processLoop_of_error (extract : FileData → Except String (List Transaction)) :
    ∀ (fs : List FileData) (acc : List Transaction) (i : ℕ) (s : AppState),
      (∃ f ∈ fs, ∃ msg, extract f = Except.error msg) →
      (processLoop extract acc i fs s).transactions = s.transactions ∧
      (processLoop extract acc i fs s).status = ProcessingStatus.ERROR ∧
      (∃ m, (processLoop extract acc i fs s).error = some m) ∧
      (processLoop extract acc i fs s).currentlyProcessingIdx = none := by
  intro fs
  induction fs with
  | nil => intro acc i s h; simp at h
  | cons f rest ih =>
    intro acc i s h
    cases hx : extract f with
    | error msg =>
      simp [processLoop, hx]
    | ok result =>
      have hrest : ∃ g ∈ rest, ∃ msg, extract g = Except.error msg := by
        obtain ⟨g, hg, msg, hmsg⟩ := h
        rcases List.mem_cons.mp hg with hgf | hg'
        · subst hgf; rw [hx] at hmsg; cases hmsg
        · exact ⟨g, hg', msg, hmsg⟩
      simp only [processLoop, hx]
      exact ih _ _ _ hrest

/-- C2: if the extraction collaborator fails on any document, the
orchestrator exposes no transactions (the visible list is empty), sets the
`ERROR` status with a single error message, and clears the in-progress
marker; the consolidated list built from earlier documents is discarded. -/
theorem processStatements_failure (extract : FileData → Except String (List Transaction))
    (s : AppState) (hfail : ∃ f ∈ s.files, ∃ msg, extract f = Except.error msg) :
    (processStatements extract s).transactions = [] ∧
    (processStatements extract s).status = ProcessingStatus.ERROR ∧
    (∃ m, (processStatements extract s).error = some m) ∧
    (processStatements extract s).currentlyProcessingIdx = none := by
  have hne : ¬ s.files.length = 0 := by
    obtain ⟨f, hf, _⟩ := hfail
    simpa [List.length_eq_zero] using List.ne_nil_of_mem hf
  rw [processStatements, if_neg hne]
  exact processLoop_of_error extract s.files [] 0 _ hfail

/-- Document fixture `A`. -/
def fileA : FileData := { name := "A.pdf", base64 := "", type := "application/pdf" }

/-- Document fixture `B`. -/
def fileB : FileData := { name := "B.pdf", base64 := "", type := "application/pdf" }

/-- A fresh component state with two uploaded documents. -/
def idleState : AppState :=
  { files := [fileA, fileB], transactions := [], status := ProcessingStatus.IDLE,
    error := none, selectedView := "all", processedCount := 0,
    currentlyProcessingIdx := none }

/-- An extraction collaborator that succeeds on `A.pdf` (empty result) and
throws on `B.pdf`. -/
def failOnB : FileData → Except String (List Transaction) :=
  fun f => if f.name = "B.pdf" then Except.error "Network error" else Except.ok []

/-- Witness for C2: documents `[A, B]` where `B`'s extraction fails. -/
theorem processStatements_failure_witness :
    (∃ f ∈ idleState.files, ∃ msg, failOnB f = Except.error msg) ∧
    ((processStatements failOnB idleState).transactions = [] ∧
     (processStatements failOnB idleState).status = ProcessingStatus.ERROR ∧
     (∃ m, (processStatements failOnB idleState).error = some m) ∧
     (processStatements failOnB idleState).currentlyProcessingIdx = none) :=
  ⟨⟨fileB, by decide, "Network error", rfl⟩,
   processStatements_failure failOnB idleState
     ⟨fileB, by decide, "Network error", rfl⟩⟩

theorem processLoop_of_ok (extract : FileData → Except String (List Transaction))
    (ok : FileData → List Transaction) :
    ∀ (fs : List FileData) (acc : List Transaction) (i : ℕ) (s : AppState),
      s.processedCount = i →
      (∀ f ∈ fs, extract f = Except.ok (ok f)) →
      processLoop extract acc i fs s =
        { s with
          transactions :=
            acc ++ fs.flatMap (fun f => (ok f).map fun t => { t with sourceFile := f.name })
          status := ProcessingStatus.SUCCESS
          currentlyProcessingIdx := none
          selectedView := "all"
          processedCount := i + fs.length } := by
  intro fs
  induction fs with
  | nil =>
    intro acc i s hpc hok
    subst hpc
    simp [processLoop]
  | cons f rest ih =>
    intro acc i s hpc hok
    have hf : extract f = Except.ok (ok f) := hok f (List.mem_cons_self f rest)
    have hstep := ih (acc ++ (ok f).map fun t => { t with sourceFile := f.name }) (i + 1)
      { s with currentlyProcessingIdx := some i, processedCount := i + 1 } rfl
      (fun g hg => hok g (List.mem_cons_of_mem f hg))
    simp only [processLoop, hf]
    rw [hstep]
    simp only [List.flatMap_cons, List.append_assoc, List.length_cons, AppState.mk.injEq,
      and_true, true_and]
    omega

/-- C4 (amended): for every NONEMPTY document sequence whose extraction
calls all succeed, the consolidated list is the concatenation of the
per-document results in submission order, each record tagged with the
`sourceFile` of the document it came from, the completed counter equals the
input length, and the status is `SUCCESS`. (For an empty document list the
orchestrator returns early and leaves the component state untouched.) -/
theorem processStatements_success (extract : FileData → Except String (List Transaction))
    (ok : FileData → List Transaction) (s : AppState) (hne : s.files ≠ [])
    (hok : ∀ f ∈ s.files, extract f = Except.ok (ok f)) :
    (processStatements extract s).transactions
        = s.files.flatMap (fun f => (ok f).map fun t => { t with sourceFile := f.name }) ∧
    (processStatements extract s).processedCount = s.files.length ∧
    (processStatements extract s).status = ProcessingStatus.SUCCESS := by
  have hlen : ¬ s.files.length = 0 := by simpa [List.length_eq_zero] using hne
  rw [processStatements, if_neg hlen]
  rw [processLoop_of_ok extract ok s.files [] 0 _ rfl hok]
  exact ⟨by simp, by simp, rfl⟩

/-- A state left over from an earlier successful batch run: one transaction
shown and one document counted, with the uploaded-file list cleared. -/
def staleState : AppState :=
  { files := [], transactions := [txA], status := ProcessingStatus.SUCCESS,
    error := none, selectedView := "all", processedCount := 1,
    currentlyProcessingIdx := none }

/-- C4 (counterexample): with an empty document list (all zero extraction
calls vacuously succeed) the orchestrator returns early and leaves the
previous state in place, so the consolidated list is not the (empty)
concatenation and the completed counter does not equal the input length 0. -/
theorem processStatements_empty_input_counterexample :
    ¬ ((processStatements (fun _ => Except.ok []) staleState).transactions
          = staleState.files.flatMap
              (fun f => ([] : List Transaction).map fun t => { t with sourceFile := f.name }) ∧
       (processStatements (fun _ => Except.ok []) staleState).processedCount
          = staleState.files.length) := by
  decide

/-- A raw parsed transaction, as handed back by the model. -/
def rawTx : RawTransaction :=
  { date := "2024-01-01", description := "x", amount := -1, category := "Misc", notes := "" }

/-- Per-document results for the claim's example: `A.pdf` yields 2 records,
any other document 3 records (with distinct call timestamps 10 and 11). -/
def okAB (f : FileData) : List Transaction :=
  if f.name = "A.pdf" then extractTransactions 10 [rawTx, rawTx]
  else extractTransactions 11 [rawTx, rawTx, rawTx]

/-- An extraction collaborator that always succeeds with `okAB`. -/
def extractAB : FileData → Except String (List Transaction) :=
  fun f => Except.ok (okAB f)

/-- Witness for C4 (amended): documents `[A, B]` yielding 2 and 3 records. -/
theorem processStatements_success_witness :
    idleState.files ≠ [] ∧
    ((processStatements extractAB idleState).transactions
        = idleState.files.flatMap (fun f => (okAB f).map fun t => { t with sourceFile := f.name }) ∧
     (processStatements extractAB idleState).processedCount = idleState.files.length ∧
     (processStatements extractAB idleState).status = ProcessingStatus.SUCCESS) :=
  ⟨by decide,
   processStatements_success extractAB okAB idleState (by decide) (fun f _ => rfl)⟩

/-- An extraction collaborator for which both calls of the batch observe the
same `Date.now()` timestamp (1000) and parse one transaction each. -/
def collidingExtract : FileData → Except String (List Transaction) :=
  fun _ => Except.ok (extractTransactions 1000 [rawTx])

/-- C8 (failing input): when two documents are processed within the same
millisecond, `Date.now()` is the same in both extraction calls and both
per-call indices start at 0, so both transactions get id `"1000-0"`: the id
fields of the consolidated batch are NOT pairwise distinct. -/
theorem batch_ids_collide :
    ((processStatements collidingExtract idleState).transactions.map Transaction.id)
        = ["1000-0", "1000-0"] ∧
    ¬ ((processStatements collidingExtract idleState).transactions.map
        Transaction.id).Nodup := by
  constructor <;> decide

end BankOCR
